import Mathlib

/-!
Verification of the data-loading pipeline in `code/dat_loader_simple.py`
(vognet-pytorch).  Python lists become Lean `List`s, NumPy/torch float entries
become `ℚ`, fallible operations (assertions, out-of-range indexing, infinite
loops cut by fuel) return `Option` or an explicit result type.
-/

namespace Vognet

/-- Shallow embedding of `AnetEntDataset.pad_words_with_vocab`
(dat_loader_simple.py, lines 160-178).  The Python function takes a list, a
target length `pad_len` (`-1` means "leave unchanged") and a filler `defm`
which at every call site is a singleton list `[d]`, so
`out_list += defm * (pad_len - curr_len)` appends `pad_len - curr_len` copies
of `d`.  The optional `voc` parameter only drives an internal sanity assert on
the vocabulary object and is dropped here. -/
def pad_words_with_vocab {α : Type} (out_list : List α) (pad_len : Int) (defm : α) : List α :=
  if pad_len = -1 ∨ (out_list.length : Int) = pad_len then out_list
  else if (out_list.length : Int) > pad_len then out_list.take pad_len.toNat
  else out_list ++ List.replicate (pad_len.toNat - out_list.length) defm

theorem pad_words_with_vocab_neg_one {α : Type} (l : List α) (d : α) :
    pad_words_with_vocab l (-1) d = l := by
  simp [pad_words_with_vocab]

theorem pad_words_with_vocab_length {α : Type} (l : List α) (n : Nat) (d : α) :
    (pad_words_with_vocab l (n : Int) d).length = n := by
  unfold pad_words_with_vocab
  rcases lt_trichotomy l.length n with h | h | h
  · rw [if_neg, if_neg]
    · simp [List.length_replicate]
      omega
    · omega
    · rintro (h1 | h1) <;> omega
  · rw [if_pos]
    · exact h
    · right
      exact_mod_cast h
  · rw [if_neg, if_pos]
    · simp
      omega
    · exact_mod_cast h
    · rintro (h1 | h1) <;> omega

theorem pad_words_with_vocab_trunc {α : Type} (l : List α) (n : Nat) (d : α)
    (h : n ≤ l.length) :
    pad_words_with_vocab l (n : Int) d = l.take n := by
  unfold pad_words_with_vocab
  rcases eq_or_lt_of_le h with h' | h'
  · rw [if_pos]
    · subst h'
      exact (List.take_length l).symm
    · right
      exact_mod_cast h'.symm
  · rw [if_neg, if_pos]
    · simp
    · exact_mod_cast h'
    · rintro (h1 | h1) <;> omega

theorem pad_words_with_vocab_fill {α : Type} (l : List α) (n : Nat) (d : α)
    (h : l.length < n) :
    pad_words_with_vocab l (n : Int) d = l ++ List.replicate (n - l.length) d := by
  unfold pad_words_with_vocab
  rw [if_neg, if_neg]
  · simp
  · omega
  · rintro (h1 | h1) <;> omega

/-- C2: `pad_words_with_vocab` returns a list of length exactly `pad_len` for
`pad_len ≥ 0`; if the input is at least that long the result is the pure
prefix `s.take pad_len` with no filler injected; if shorter, the tail is
copies of the filler `defm`; and `pad_len = -1` returns the input unchanged. -/
theorem C2_pad_words_with_vocab_spec {α : Type} (s : List α) (pad_len : Nat) (d : α) :
    (pad_words_with_vocab s (pad_len : Int) d).length = pad_len ∧
    (pad_len ≤ s.length → pad_words_with_vocab s (pad_len : Int) d = s.take pad_len) ∧
    (s.length < pad_len →
      pad_words_with_vocab s (pad_len : Int) d
        = s ++ List.replicate (pad_len - s.length) d) ∧
    pad_words_with_vocab s (-1) d = s := by
  refine ⟨pad_words_with_vocab_length s pad_len d, ?_, ?_, pad_words_with_vocab_neg_one s d⟩
  · intro h
    exact pad_words_with_vocab_trunc s pad_len d h
  · intro h
    exact pad_words_with_vocab_fill s pad_len d h

/-- Witness for C2 at a concrete input. -/
theorem C2_pad_words_with_vocab_spec_witness :
    (pad_words_with_vocab ([5, 6, 7] : List Int) (2 : Nat) 0).length = 2 ∧
    pad_words_with_vocab ([5, 6, 7] : List Int) (2 : Nat) 0 = [5, 6] ∧
    pad_words_with_vocab ([5, 6, 7] : List Int) (5 : Nat) 0 = [5, 6, 7, 0, 0] ∧
    pad_words_with_vocab ([5, 6, 7] : List Int) (-1) 0 = [5, 6, 7] := by
  have h3 := C2_pad_words_with_vocab_spec ([5, 6, 7] : List Int) 2 0
  have h5 := C2_pad_words_with_vocab_spec ([5, 6, 7] : List Int) 5 0
  refine ⟨h3.1, ?_, ?_, h3.2.2.2⟩
  · rw [h3.2.1 (by decide)]
    decide
  · rw [h5.2.2.1 (by decide)]
    decide

theorem pad_words_with_vocab_getElem_lt {α : Type} (l : List α) (n : Nat) (d : α)
    (i : Nat) (hi : i < l.length) (hin : i < n) :
    (pad_words_with_vocab l (n : Int) d)[i]? = l[i]? := by
  rcases le_or_lt n l.length with h | h
  · rw [pad_words_with_vocab_trunc l n d h, List.getElem?_take, if_pos hin]
  · rw [pad_words_with_vocab_fill l n d h, List.getElem?_append, if_pos hi]

theorem pad_words_with_vocab_getElem_fill {α : Type} (l : List α) (n : Nat) (d : α)
    (i : Nat) (hl : l.length ≤ i) (hin : i < n) :
    (pad_words_with_vocab l (n : Int) d)[i]? = some d := by
  have h : l.length < n := lt_of_le_of_lt hl hin
  rw [pad_words_with_vocab_fill l n d h, List.getElem?_append_right hl,
    List.getElem?_replicate, if_pos (by omega)]

theorem zipWith_map_self {α β γ : Type} (f : α → β → γ) (g : α → β) :
    ∀ l : List α, List.zipWith f l (l.map g) = l.map (fun a => f a (g a))
  | [] => rfl
  | a :: t => by simp only [List.map_cons, List.zipWith_cons_cons,
      zipWith_map_self f g t]

/-- A detection box: columns 0-3 are spatial coordinates, column 4 the frame
index, column 5 the detection class and column 6 the confidence. -/
abbrev Box := Fin 7 → ℚ

def zero_box : Box := fun _ => 0

/-- Shallow embedding of `AnetEntDataset.get_props` (dat_loader_simple.py,
lines 180-201).  `num_proposals` is `dets_num[index]`, `label_proposals` is
`dets_labels[index]`; `prop_thresh`, `exclude_bgd_det` and `max_proposals`
come from the configuration.  The mask keeps proposals whose confidence
(column 6) is at least `prop_thresh`, and — when background exclusion is on —
whose class (column 5) is nonzero; proposals and mask are padded to
`max_proposals`. -/
def get_props (max_proposals : Nat) (prop_thresh : ℚ) (exclude_bgd_det : Bool)
    (num_proposals : Nat) (label_proposals : List Box) :
    List Box × List Bool × Nat :=
  let proposals := label_proposals.take num_proposals
  let pnt_mask0 := proposals.map (fun b => decide (prop_thresh ≤ b 6))
  let pnt_mask :=
    if exclude_bgd_det then
      List.zipWith (fun b m => m && decide (b 5 ≠ 0)) proposals pnt_mask0
    else pnt_mask0
  let num_props := min proposals.length max_proposals
  (pad_words_with_vocab proposals (max_proposals : Int) zero_box,
   pad_words_with_vocab pnt_mask (max_proposals : Int) false,
   num_props)

/-- C1: `get_props` returns `num_props = min(num_detections, max_proposals)`;
the padded proposal list has exactly `max_proposals` rows, its first
`num_props` rows are the stored detections and every later row is the zero
box; the mask bit at each of the first `num_props` rows is 1 iff the
confidence (column 6) is at least `prop_thresh` and, when background exclusion
is enabled, the class (column 5) is nonzero; mask bits at or beyond
`num_props` are 0.  `hdet` is the h5-store invariant that `dets_num[index]`
never exceeds the number of stored rows of `dets_labels[index]`. -/
theorem C1_get_props_spec (max_proposals : Nat) (prop_thresh : ℚ)
    (exclude_bgd_det : Bool) (num_proposals : Nat) (label_proposals : List Box)
    (pp : List Box) (pm : List Bool) (np : Nat)
    (hdet : num_proposals ≤ label_proposals.length)
    (hr : get_props max_proposals prop_thresh exclude_bgd_det num_proposals
      label_proposals = (pp, pm, np)) :
    np = min num_proposals max_proposals ∧
    pp.length = max_proposals ∧
    pm.length = max_proposals ∧
    (∀ i, i < np → pp[i]? = label_proposals[i]?) ∧
    (∀ i, np ≤ i → i < max_proposals → pp[i]? = some zero_box) ∧
    (∀ i b, i < np → label_proposals[i]? = some b →
      (pm[i]? = some true ↔
        (prop_thresh ≤ b 6 ∧ (exclude_bgd_det = true → b 5 ≠ 0)))) ∧
    (∀ i, np ≤ i → i < max_proposals → pm[i]? = some false) := by
  simp only [get_props, Prod.mk.injEq] at hr
  obtain ⟨hpp, hpm, hnp⟩ := hr
  subst hpp hpm hnp
  have hlen : (label_proposals.take num_proposals).length = num_proposals := by
    simp [min_eq_left hdet]
  refine ⟨by rw [hlen], pad_words_with_vocab_length _ _ _,
    pad_words_with_vocab_length _ _ _, ?_, ?_, ?_, ?_⟩
  · intro i hi
    rw [hlen] at hi
    have h1 : i < (label_proposals.take num_proposals).length := by omega
    have h2 : i < max_proposals := by omega
    rw [pad_words_with_vocab_getElem_lt _ _ _ _ h1 h2,
      List.getElem?_take, if_pos (by omega)]
  · intro i hnpi hi
    rw [hlen] at hnpi
    have h1 : (label_proposals.take num_proposals).length ≤ i := by omega
    exact pad_words_with_vocab_getElem_fill _ _ _ _ h1 hi
  · intro i b hi hb
    rw [hlen] at hi
    have hiltn : i < num_proposals := by omega
    have h2 : i < max_proposals := by omega
    have hpropi : (label_proposals.take num_proposals)[i]? = some b := by
      rw [List.getElem?_take, if_pos hiltn]
      exact hb
    have hmlen :
        (if exclude_bgd_det then
          List.zipWith (fun b m => m && decide (b 5 ≠ 0))
            (label_proposals.take num_proposals)
            ((label_proposals.take num_proposals).map
              (fun b => decide (prop_thresh ≤ b 6)))
        else
          (label_proposals.take num_proposals).map
            (fun b => decide (prop_thresh ≤ b 6))).length = num_proposals := by
      cases exclude_bgd_det <;> simp [hlen, hdet]
    have h1 : i < (if exclude_bgd_det then
        List.zipWith (fun b m => m && decide (b 5 ≠ 0))
          (label_proposals.take num_proposals)
          ((label_proposals.take num_proposals).map
            (fun b => decide (prop_thresh ≤ b 6)))
      else
        (label_proposals.take num_proposals).map
          (fun b => decide (prop_thresh ≤ b 6))).length := by
      rw [hmlen]
      exact hiltn
    rw [pad_words_with_vocab_getElem_lt _ _ _ _ h1 h2]
    cases exclude_bgd_det
    · simp only [if_neg (Bool.false_ne_true), List.getElem?_map, hpropi]
      simp
    · rw [if_pos rfl, zipWith_map_self]
      simp only [List.getElem?_map, hpropi]
      simp
  · intro i hnpi hi
    rw [hlen] at hnpi
    have hge : num_proposals ≤ i := by omega
    have hmlen :
        (if exclude_bgd_det then
          List.zipWith (fun b m => m && decide (b 5 ≠ 0))
            (label_proposals.take num_proposals)
            ((label_proposals.take num_proposals).map
              (fun b => decide (prop_thresh ≤ b 6)))
        else
          (label_proposals.take num_proposals).map
            (fun b => decide (prop_thresh ≤ b 6))).length = num_proposals := by
      cases exclude_bgd_det <;> simp [hlen, hdet]
    exact pad_words_with_vocab_getElem_fill _ _ _ _ (by rw [hmlen]; exact hge) hi

/-- Witness for C1: two detections, `max_proposals = 4`, threshold `1/2`,
background exclusion on; the first detection passes (confidence 0.7, class 3),
the second fails (class 0). -/
theorem C1_get_props_spec_witness :
    (2 ≤ ([fun _ => (2 : ℚ), fun c => if c = 6 then 0.7 else 0] :
        List Box).length) ∧
    ((fun r =>
        r.2.2 = min 2 4 ∧
        r.1.length = 4 ∧
        r.2.1.length = 4 ∧
        (∀ i, i < r.2.2 →
          r.1[i]? = ([fun _ => (2 : ℚ), fun c => if c = 6 then 0.7 else 0] :
            List Box)[i]?) ∧
        (∀ i, r.2.2 ≤ i → i < 4 → r.1[i]? = some zero_box) ∧
        (∀ i b, i < r.2.2 →
          ([fun _ => (2 : ℚ), fun c => if c = 6 then 0.7 else 0] :
            List Box)[i]? = some b →
          (r.2.1[i]? = some true ↔
            ((1 : ℚ)/2 ≤ b 6 ∧ (true = true → b 5 ≠ 0)))) ∧
        (∀ i, r.2.2 ≤ i → i < 4 → r.2.1[i]? = some false))
      (get_props 4 ((1 : ℚ)/2) true 2
        ([fun _ => (2 : ℚ), fun c => if c = 6 then 0.7 else 0] : List Box))) :=
  ⟨by decide,
   C1_get_props_spec 4 ((1 : ℚ)/2) true 2
     ([fun _ => (2 : ℚ), fun c => if c = 6 then 0.7 else 0] : List Box)
     _ _ _ (by decide) rfl⟩

/-- Shallow embedding of `AnetEntDataset.get_frm_mask`
(dat_loader_simple.py, lines 237-255): the outer `!=` comparison of a
proposal frame-index vector against a ground-truth frame-index vector. -/
def get_frm_mask (proposals gt_bboxs : List ℚ) : List (List Bool) :=
  proposals.map (fun p => gt_bboxs.map (fun g => decide (p ≠ g)))

/-- Shallow embedding of the frame-mask padding in
`AnetEntDataset.simple_item_getter` (dat_loader_simple.py, lines 409-416):
`pad_frm_mask = np.ones((max_proposals, max_gt_box))` followed by the slice
assignment `pad_frm_mask[:num_props, :num_box] = frm_mask` (booleans cast
to 0/1). -/
def pad_frm_mask (max_proposals max_gt_box num_props num_box : Nat)
    (frm : List (List Bool)) : List (List ℚ) :=
  (List.range max_proposals).map (fun i =>
    (List.range max_gt_box).map (fun j =>
      if i < num_props ∧ j < num_box then
        (if (frm.getD i []).getD j true then 1 else 0)
      else 1))

/-- C3: `get_frm_mask(p, g)[i, j] = (p[i] != g[j])` for every valid pair of
indices, and every entry of the padded frame mask at a row at or beyond
`num_props` or a column at or beyond `num_box` equals 1. -/
theorem C3_frm_mask_spec (p g : List ℚ) (i j : Nat) (pi gj : ℚ)
    (hp : p[i]? = some pi) (hg : g[j]? = some gj)
    (max_proposals max_gt_box num_props num_box : Nat)
    (frm : List (List Bool)) (i2 j2 : Nat)
    (hi2 : i2 < max_proposals) (hj2 : j2 < max_gt_box)
    (hout : num_props ≤ i2 ∨ num_box ≤ j2) :
    ((get_frm_mask p g)[i]?.bind (fun row => row[j]?)) =
      some (decide (pi ≠ gj)) ∧
    ((pad_frm_mask max_proposals max_gt_box num_props num_box frm)[i2]?.bind
      (fun row => row[j2]?)) = some 1 := by
  constructor
  · simp [get_frm_mask, List.getElem?_map, hp, hg]
  · simp only [pad_frm_mask, List.getElem?_map, List.getElem?_range hi2,
      List.getElem?_range hj2]
    simp only [Option.map_some', Option.some_bind, List.getElem?_map,
      List.getElem?_range hj2, Option.map_some']
    rcases hout with h | h
    · rw [if_neg (by omega)]
    · rw [if_neg (by omega)]

/-- Witness for C3 at concrete frame vectors and a concrete padding shape. -/
theorem C3_frm_mask_spec_witness :
    ((get_frm_mask [3, 4] [4])[0]?.bind (fun row => row[0]?)) =
      some (decide ((3 : ℚ) ≠ 4)) ∧
    ((pad_frm_mask 3 2 1 1 [[false]])[2]?.bind (fun row => row[1]?)) =
      some 1 :=
  C3_frm_mask_spec [3, 4] [4] 0 0 3 4 rfl rfl 3 2 1 1 [[false]] 2 1
    (by decide) (by decide) (Or.inl (by decide))

/-- Shallow embedding of `AnetEntDataset.get_gt_annots` (dat_loader_simple.py,
lines 318-340).  `bbox` and `frm_idx` come from the caption record
(`caption_dct['bbox']`, `caption_dct['frm_idx']`); the Python assert
`len(gt_bboxs) == len(gt_frms)` is modelled by returning `none` on mismatch.
Each box gets its frame index appended (`torch.cat([gt_bboxs, gt_frms], -1)`),
then boxes and the all-ones validity mask are padded to `max_gt_box`; the
returned count is the unclamped `len(gt_bboxs)`. -/
def get_gt_annots (max_gt_box : Nat) (bbox : List (List ℚ)) (frm_idx : List ℚ) :
    Option (List (List ℚ) × List Nat × Nat) :=
  if bbox.length = frm_idx.length then
    let num_box := bbox.length
    let gt_bboxs_t := List.zipWith (fun b f => b ++ [f]) bbox frm_idx
    some (pad_words_with_vocab gt_bboxs_t (max_gt_box : Int) (List.replicate 5 0),
          pad_words_with_vocab (List.replicate num_box 1) (max_gt_box : Int) 0,
          num_box)
  else none

/-- Counterexample to C5 as stated: with `max_gt_box = 1` and a caption record
holding two boxes, `get_gt_annots` returns `num_box = 2`, violating the
claimed invariant `num_box ≤ max_gt_box`. -/
theorem C5_get_gt_annots_counterexample :
    (get_gt_annots 1 [[0, 0, 0, 0], [0, 0, 0, 0]] [7, 8]).map
      (fun r => r.2.2) = some 2 ∧ ¬ ((2 : Nat) ≤ 1) := by
  constructor
  · rfl
  · decide

/-- C5 (amended): `get_gt_annots` always returns a padded box list with
exactly `max_gt_box` rows and a padded validity mask with exactly `max_gt_box`
entries; the returned `num_box` equals the record's (unclamped) box count, so
`num_box ≤ max_gt_box` holds exactly when the record has at most `max_gt_box`
boxes. -/
theorem C5_get_gt_annots_amended (max_gt_box : Nat) (bbox : List (List ℚ))
    (frm_idx : List ℚ) (pb : List (List ℚ)) (pbm : List Nat) (num_box : Nat)
    (hr : get_gt_annots max_gt_box bbox frm_idx = some (pb, pbm, num_box)) :
    num_box = bbox.length ∧
    pb.length = max_gt_box ∧
    pbm.length = max_gt_box ∧
    (bbox.length ≤ max_gt_box → num_box ≤ max_gt_box) := by
  unfold get_gt_annots at hr
  split at hr
  · simp only [Option.some.injEq, Prod.mk.injEq] at hr
    obtain ⟨hpb, hpbm, hnb⟩ := hr
    subst hpb hpbm hnb
    exact ⟨rfl, pad_words_with_vocab_length _ _ _,
      pad_words_with_vocab_length _ _ _, fun h => h⟩
  · exact absurd hr (by simp)

/-- Witness for C5 (amended) at a concrete caption record. -/
theorem C5_get_gt_annots_amended_witness :
    (1 : Nat) = ([[1, 2, 3, 4]] : List (List ℚ)).length ∧
    ([[1, 2, 3, 4, 9]] ++ [List.replicate 5 0]).length = 2 := by
  have h := C5_get_gt_annots_amended 2 [[1, 2, 3, 4]] [9]
    ([[1, 2, 3, 4, 9]] ++ [List.replicate 5 0]) [1, 0] 1 (by rfl)
  exact ⟨h.1, h.2.1⟩

theorem indexOf_eq_of_first {α : Type} [DecidableEq α] (a : α) :
    ∀ (l : List α) (k : Nat), l[k]? = some a → (∀ j, j < k → l[j]? ≠ some a) →
      l.indexOf a = k
  | [], k, h, _ => by simp at h
  | x :: t, 0, h, _ => by
    simp only [List.getElem?_cons_zero, Option.some.injEq] at h
    subst h
    exact List.indexOf_cons_self x t
  | x :: t, k + 1, h, hf => by
    have hx : x ≠ a := by
      intro he
      exact hf 0 (Nat.succ_pos k) (by simp [he])
    have ht := indexOf_eq_of_first a t k (by simpa using h)
      (fun j hj hje => hf (j + 1) (by omega) (by simpa using hje))
    simp [List.indexOf_cons, hx, ht]

/-- Shallow embedding of the verb-slot computation of
`AnetVerbDataset.get_srl_anns` (dat_loader_simple.py, lines 582-585):
`assert 'V' in srl_args` (an AssertionError is modelled as `none`), then
`verb_ind_in_srl = srl_args.index('V')`, replaced by 0 when it exceeds
`srl_arg_len - 1`. -/
def verb_ind_in_srl (srl_args : List String) (srl_arg_len : Nat) : Option Nat :=
  if "V" ∈ srl_args then
    let i := srl_args.indexOf "V"
    some (if (i : Int) ≤ (srl_arg_len : Int) - 1 then i else 0)
  else none

/-- Counterexample to C8 as stated: when no argument is tagged `V`, the code
hits `assert 'V' in srl_args` and the call fails; it does not default the
assignment to index 0. -/
theorem C8_verb_ind_counterexample :
    verb_ind_in_srl ["ARG0", "ARG1"] 5 = none ∧
    verb_ind_in_srl ["ARG0", "ARG1"] 5 ≠ some 0 := by
  constructor
  · rfl
  · decide

/-- C8 (amended): when some argument is tagged `V`, the verb slot is the index
of the first `V` among the row's argument names, falling back to slot 0 if
that index exceeds `srl_arg_len - 1`; when no argument is tagged `V`, the call
fails (assertion) instead of defaulting to 0. -/
theorem C8_verb_ind_amended (srl_args : List String) (srl_arg_len k : Nat)
    (hk : srl_args[k]? = some "V")
    (hfirst : ∀ j, j < k → srl_args[j]? ≠ some "V") :
    verb_ind_in_srl srl_args srl_arg_len =
      some (if (k : Int) ≤ (srl_arg_len : Int) - 1 then k else 0) ∧
    (∀ args : List String, ¬ ("V" ∈ args) →
      verb_ind_in_srl args srl_arg_len = none) := by
  constructor
  · have hmem : "V" ∈ srl_args := List.getElem?_mem hk
    have hidx : srl_args.indexOf "V" = k := indexOf_eq_of_first "V" srl_args k hk hfirst
    simp [verb_ind_in_srl, hmem, hidx]
  · intro args hargs
    simp [verb_ind_in_srl, hargs]

/-- Witness for C8 (amended): `V` sits at index 1 of `[ARG0, V]` with
`srl_arg_len = 5`, so the verb slot is 1. -/
theorem C8_verb_ind_amended_witness :
    verb_ind_in_srl ["ARG0", "V"] 5 =
      some (if ((1 : Nat) : Int) ≤ ((5 : Nat) : Int) - 1 then 1 else 0) ∧
    (∀ args : List String, ¬ ("V" ∈ args) → verb_ind_in_srl args 5 = none) :=
  C8_verb_ind_amended ["ARG0", "V"] 5 1 (by rfl)
    (fun j hj => by
      interval_cases j
      decide)

/-- Per-channel mean of a list of frame feature vectors (`mean(axis=0)` over a
slice); a frame feature is a channel-indexed function. -/
def mean_rows (rows : List (Nat → ℚ)) : Nat → ℚ :=
  fun c => (rows.map (fun r => r c)).sum / rows.length

/-- Python slice `l[s:e]` for `0 ≤ s` and `e` already clipped to the list
length. -/
def slice_rows {α : Type} (l : List α) (s e : Int) : List α :=
  (l.take e.toNat).drop s.toNat

/-- NumPy `.astype(np.int_)`: truncation toward zero. -/
def rat_to_int (q : ℚ) : Int := q.num.tdiv (q.den : Int)

/-- Shallow embedding of the body of `AnetEntDataset.get_seg_feat_for_frms`
(dat_loader_simple.py, lines 279-316) after the timestamp swap: with
`ctx = cfg.misc.ctx_for_seg_feats`, bin times
`st + (end - st)/10 * (i + 0.5)` for `i < 10` are mapped (2 fps sampling, so
times are doubled then truncated to int, minus 1, clamped to
`[0, num_frms - 1]`) to source indices; each bin averages the context window
`[fi - ctx - 1, fi + ctx + 1)` clipped to range (or, when `ctx = 0`, takes the
single indexed frame); the global feature averages `[st_indices[0],
end_indices[-1])`, falling back to the single frame `st_indices[0]` when that
window is empty.  The assert `np.all(end_indices - st_indices > 0)` and
out-of-range indexing are modelled as `none`. -/
def seg_feat_core (ctx : Nat) (seg_feats : List (Nat → ℚ))
    (st_time end_time : ℚ) : Option (List (Nat → ℚ) × (Nat → ℚ)) :=
  let duration_clip := end_time - st_time
  let num_frms := seg_feats.length
  let frm_index_in_seg_feat : List Int :=
    (List.range 10).map (fun i =>
      min (max (rat_to_int ((st_time + duration_clip / 10 * ((i : ℚ) + 1/2)) * 2) - 1) 0)
        ((num_frms : Int) - 1))
  let st_indices := frm_index_in_seg_feat.map (fun f => max (f - (ctx : Int) - 1) 0)
  let end_indices := frm_index_in_seg_feat.map (fun f => min (f + (ctx : Int) + 1) (num_frms : Int))
  let s0 := st_indices.getD 0 0
  let e9 := end_indices.getD 9 0
  let glob? : Option (Nat → ℚ) :=
    if s0 ≠ e9 then some (mean_rows (slice_rows seg_feats s0 e9))
    else seg_feats[s0.toNat]?
  match glob? with
  | none => none
  | some seg_feats_frms_glob =>
    if (List.zipWith (fun e s => decide (0 < e - s)) end_indices st_indices).all id then
      let frms? : Option (List (Nat → ℚ)) :=
        if ctx ≠ 0 then
          some ((List.zip st_indices end_indices).map
            (fun p => mean_rows (slice_rows seg_feats p.1 p.2)))
        else
          frm_index_in_seg_feat.mapM (fun f => seg_feats[f.toNat]?)
      match frms? with
      | none => none
      | some seg_feats_frms => some (seg_feats_frms, seg_feats_frms_glob)
    else none

/-- Shallow embedding of `AnetEntDataset.get_seg_feat_for_frms`
(dat_loader_simple.py, lines 257-316): inverted timestamps are swapped
(lines 274-278), then the fixed-grid resampling above runs on the ordered
window.  `duration` is accepted but unused, as in the source. -/
def get_seg_feat_for_frms (ctx : Nat) (seg_feats : List (Nat → ℚ))
    (timestamps : ℚ × ℚ) (duration : ℚ) : Option (List (Nat → ℚ) × (Nat → ℚ)) :=
  let ts := if timestamps.1 > timestamps.2 then (timestamps.2, timestamps.1)
            else timestamps
  seg_feat_core ctx seg_feats ts.1 ts.2

/-- C6: `get_seg_feat_for_frms` on an inverted timestamp pair `(a, b)` with
`a > b` returns exactly the same per-bin features and global feature as on the
ordered pair `(b, a)`. -/
theorem C6_seg_feat_swap (ctx : Nat) (seg_feats : List (Nat → ℚ))
    (duration a b : ℚ) (h : b < a) :
    get_seg_feat_for_frms ctx seg_feats (a, b) duration =
      get_seg_feat_for_frms ctx seg_feats (b, a) duration := by
  have h1 : (a, b).1 > (a, b).2 := h
  have h2 : ¬ ((b, a).1 > (b, a).2) := not_lt.mpr h.le
  simp only [get_seg_feat_for_frms, if_pos h1, if_neg h2]

/-- Witness for C6: timestamps `(5, 3)` versus `(3, 5)` on a tiny feature
list. -/
theorem C6_seg_feat_swap_witness :
    (3 : ℚ) < 5 ∧
    get_seg_feat_for_frms 0 [fun _ => 1, fun _ => 2] ((5 : ℚ), (3 : ℚ)) 40 =
      get_seg_feat_for_frms 0 [fun _ => 1, fun _ => 2] ((3 : ℚ), (5 : ℚ)) 40 :=
  ⟨by norm_num,
   C6_seg_feat_swap 0 [fun _ => 1, fun _ => 2] 40 5 3 (by norm_num)⟩

/-- Shallow embedding of `process_props` inside `AV_CS.verb_item_getter_SPAT`
(dat_loader_simple.py, lines 1080-1103) in its `keepdim=True` reading:
`delta = torch.arange(n) * 720` broadcast over boxes, masked by
`delta_msk[..., [0, 2]] = 1`, so video `vi` adds `vi * 720` to channels 0 and
2 of each of its boxes.  (`keepdim=False` flattens the same rows and
`reshuffle_box` reorders them; neither changes any box entry.) -/
def process_props_spat (props : List (List Box)) : List (List Box) :=
  props.enum.map (fun p =>
    p.2.map (fun b => fun c =>
      b c + ((p.1 : ℚ) * 720) * (if c = 0 ∨ c = 2 then 1 else 0)))

/-- Shallow embedding of `process_props` inside `AV_CS.verb_item_getter_TEMP`
(dat_loader_simple.py, lines 1231-1252): identical except
`delta = torch.arange(n) * 10` and `delta_msk[..., [4]] = 1`, so video `vi`
adds `vi * 10` to the frame-index channel 4 only. -/
def process_props_temp (props : List (List Box)) : List (List Box) :=
  props.enum.map (fun p =>
    p.2.map (fun b => fun c =>
      b c + ((p.1 : ℚ) * 10) * (if c = 4 then 1 else 0)))

/-- C7: the SPAT shift adds `720 * video_index` to exactly channels 0 and 2
and the TEMP shift adds `10 * video_index` to exactly channel 4, leaving all
other channels unchanged; subtracting the known per-video offset from the
shifted box recovers the original box exactly. -/
theorem C7_process_props_shift (props : List (List Box)) (i j : Nat) (b : Box)
    (hb : (props[i]?.bind (fun v => v[j]?)) = some b) :
    ((process_props_spat props)[i]?.bind (fun v => v[j]?)) =
      some (fun c => b c + (if c = 0 ∨ c = 2 then 720 * (i : ℚ) else 0)) ∧
    ((process_props_temp props)[i]?.bind (fun v => v[j]?)) =
      some (fun c => b c + (if c = 4 then 10 * (i : ℚ) else 0)) ∧
    (fun c => (b c + (if c = 0 ∨ c = 2 then 720 * (i : ℚ) else 0)) -
      (if c = 0 ∨ c = 2 then 720 * (i : ℚ) else 0)) = b ∧
    (fun c => (b c + (if c = 4 then 10 * (i : ℚ) else 0)) -
      (if c = 4 then 10 * (i : ℚ) else 0)) = b := by
  obtain ⟨v, hv, hvj⟩ : ∃ v, props[i]? = some v ∧ v[j]? = some b := by
    cases hpv : props[i]? with
    | none => rw [hpv] at hb; simp at hb
    | some v =>
      rw [hpv] at hb
      exact ⟨v, rfl, by simpa using hb⟩
  refine ⟨?_, ?_, ?_, ?_⟩
  · simp only [process_props_spat, List.getElem?_map, List.getElem?_enum, hv,
      Option.map_some', Option.some_bind, hvj]
    congr 1
    funext c
    by_cases hc : c = 0 ∨ c = 2 <;> simp [hc] <;> ring
  · simp only [process_props_temp, List.getElem?_map, List.getElem?_enum, hv,
      Option.map_some', Option.some_bind, hvj]
    congr 1
    funext c
    by_cases hc : c = 4 <;> simp [hc] <;> ring
  · funext c
    ring
  · funext c
    ring

/-- Witness for C7 at a one-video, one-box stack. -/
theorem C7_process_props_shift_witness :
    ((process_props_spat [[(fun _ => (1 : ℚ) : Box)]])[0]?.bind (fun v => v[0]?)) =
      some (fun c => (fun _ => (1 : ℚ) : Box) c +
        (if c = 0 ∨ c = 2 then 720 * ((0 : Nat) : ℚ) else 0)) ∧
    ((process_props_temp [[(fun _ => (1 : ℚ) : Box)]])[0]?.bind (fun v => v[0]?)) =
      some (fun c => (fun _ => (1 : ℚ) : Box) c +
        (if c = 4 then 10 * ((0 : Nat) : ℚ) else 0)) ∧
    (fun c => ((fun _ => (1 : ℚ) : Box) c +
        (if c = 0 ∨ c = 2 then 720 * ((0 : Nat) : ℚ) else 0)) -
      (if c = 0 ∨ c = 2 then 720 * ((0 : Nat) : ℚ) else 0)) =
      (fun _ => (1 : ℚ) : Box) ∧
    (fun c => ((fun _ => (1 : ℚ) : Box) c +
        (if c = 4 then 10 * ((0 : Nat) : ℚ) else 0)) -
      (if c = 4 then 10 * ((0 : Nat) : ℚ) else 0)) = (fun _ => (1 : ℚ) : Box) :=
  C7_process_props_shift [[(fun _ => (1 : ℚ) : Box)]] 0 0
    (fun _ => (1 : ℚ) : Box) rfl

/-- The Python dict comprehension
`{k: more_idxs[k] for k in more_idxs_new_keys}` shared by both candidate
selectors: restrict the (ordered, duplicate-free-keyed) mapping to the chosen
keys, in their order. -/
def filter_keys (more_idxs : List (String × List Int)) (keys : List String) :
    List (String × List Int) :=
  keys.map (fun k => (k, (more_idxs.lookup k).getD []))

/-- Shallow embedding of the train branch of `AV_CS.get_random_more_idx` /
`AV_CS.get_cs_more_idxs` (dat_loader_simple.py, lines 983-996 and 1013-1022):
the mapping comes from the external generator; when it has more than
`cs_nvids_sample - 1` entries, `np.random.choice(list(more_idxs.keys()),
min(len(more_idxs), cs_nvids_sample - 1), replace=False)` draws that many
distinct keys (modelled by the `chosen_keys` oracle) and the mapping is
restricted to them; the candidate list under each kept key is untouched. -/
def more_idx_train (cs_nvids_sample : Nat) (more_idxs : List (String × List Int))
    (chosen_keys : List String) : List (String × List Int) :=
  if (more_idxs.length : Int) > (cs_nvids_sample : Int) - 1 then
    filter_keys more_idxs chosen_keys
  else more_idxs

/-- Shallow embedding of the valid/test branch of the same two selectors
(dat_loader_simple.py, lines 998-1005 and 1024-1030): the kept keys are the
deterministic prefix `list(more_idxs.keys())[:min(len(more_idxs),
cs_nvids_sample - 1)]`. -/
def more_idx_eval (cs_nvids_sample : Nat) (more_idxs : List (String × List Int)) :
    List (String × List Int) :=
  if (more_idxs.length : Int) > (cs_nvids_sample : Int) - 1 then
    filter_keys more_idxs
      ((more_idxs.map Prod.fst).take
        (min (more_idxs.length : Int) ((cs_nvids_sample : Int) - 1)).toNat)
  else more_idxs

/-- Counterexample to C9 as stated: with `cs_nvids_sample = 2`, a mapping with
one key whose candidate list has five entries is returned untouched — its
list is NOT truncated to `cs_nvids_sample - 1 = 1` entries. -/
theorem C9_more_idx_counterexample :
    ((more_idx_eval 2 [("ARG0", [11, 12, 13, 14, 15])]).all
      (fun p => decide (p.2.length ≤ 2 - 1))) = false := by
  decide

theorem lookup_of_mem_keys {β : Type} (k : String) :
    ∀ m : List (String × β), k ∈ m.map Prod.fst → ∃ v, m.lookup k = some v := by
  intro m
  induction m with
  | nil => intro h; simp at h
  | cons p t ih =>
    intro h
    by_cases hk : k = p.1
    · exact ⟨p.2, by simp [List.lookup, hk.symm]⟩
    · have : k ∈ t.map Prod.fst := by
        rcases List.mem_map.mp h with ⟨q, hq, hqk⟩
        rcases List.mem_cons.mp hq with rfl | hqt
        · exact absurd hqk.symm hk
        · exact List.mem_map.mpr ⟨q, hqt, hqk⟩
      obtain ⟨v, hv⟩ := ih this
      refine ⟨v, ?_⟩
      have hne : (k == p.1) = false := by
        simp [beq_iff_eq]
        exact hk
      simp [List.lookup, hne, hv]

theorem filter_keys_take_prefix :
    ∀ (m : List (String × List Int)) (n : Nat), (m.map Prod.fst).Nodup →
      filter_keys m ((m.map Prod.fst).take n) = m.take n := by
  intro m
  induction m with
  | nil => intro n _; simp [filter_keys]
  | cons p t ih =>
    intro n hnd
    cases n with
    | zero => simp [filter_keys]
    | succ n' =>
      simp only [List.map_cons, List.take_succ_cons, filter_keys, List.map_cons]
      have hhead : ((p :: t).lookup p.1).getD [] = p.2 := by
        simp [List.lookup]
      have hnd' : (t.map Prod.fst).Nodup := (List.nodup_cons.mp hnd).2
      have hp1 : p.1 ∉ t.map Prod.fst := (List.nodup_cons.mp hnd).1
      have htail : ((t.map Prod.fst).take n').map
          (fun k => (k, ((p :: t).lookup k).getD [])) =
          ((t.map Prod.fst).take n').map
          (fun k => (k, (t.lookup k).getD [])) := by
        apply List.map_congr_left
        intro k hk
        have hkt : k ∈ t.map Prod.fst := List.mem_of_mem_take hk
        have hne : (k == p.1) = false := by
          simp [beq_iff_eq]
          intro he
          exact hp1 (he ▸ hkt)
        simp [List.lookup, hne]
      rw [hhead, htail]
      have hih := ih n' hnd'
      simp only [filter_keys] at hih
      rw [hih]

theorem lookup_self_of_nodup {β : Type} :
    ∀ m : List (String × β), (m.map Prod.fst).Nodup →
      ∀ p ∈ m, m.lookup p.1 = some p.2 := by
  intro m
  induction m with
  | nil => intro _ p hp; simp at hp
  | cons q t ih =>
    intro hnd p hp
    rcases List.mem_cons.mp hp with rfl | hpt
    · simp [List.lookup]
    · have hq1 : q.1 ∉ t.map Prod.fst := (List.nodup_cons.mp hnd).1
      have hp1t : p.1 ∈ t.map Prod.fst := List.mem_map.mpr ⟨p, hpt, rfl⟩
      have hne : (p.1 == q.1) = false := by
        simp [beq_iff_eq]
        intro he
        exact hq1 (he ▸ hp1t)
      simp only [List.lookup, hne]
      exact ih (List.nodup_cons.mp hnd).2 p hpt

/-- C9 (amended): both candidate selectors truncate the returned MAPPING to at
most `cs_nvids_sample - 1` argument keys — sampled without replacement on the
train split (the `chosen_keys` oracle, constrained to `min(len, cs-1)`
distinct existing keys), the deterministic key prefix on valid/test — while
the candidate list stored under every kept key is returned unmodified. -/
theorem C9_more_idx_amended (cs : Nat) (m : List (String × List Int))
    (chosen_keys : List String) (hcs : 1 ≤ cs)
    (hnd : (m.map Prod.fst).Nodup)
    (hch_len : chosen_keys.length = min m.length (cs - 1))
    (hch_mem : ∀ k ∈ chosen_keys, k ∈ m.map Prod.fst) :
    (more_idx_train cs m chosen_keys).length = min m.length (cs - 1) ∧
    (∀ p ∈ more_idx_train cs m chosen_keys, m.lookup p.1 = some p.2) ∧
    more_idx_eval cs m = m.take (min m.length (cs - 1)) ∧
    (more_idx_eval cs m).length = min m.length (cs - 1) := by
  rcases le_or_lt m.length (cs - 1) with hle | hgt
  · have hcond : ¬ ((m.length : Int) > (cs : Int) - 1) := by omega
    have hmin : min m.length (cs - 1) = m.length := min_eq_left hle
    refine ⟨?_, ?_, ?_, ?_⟩
    · rw [more_idx_train, if_neg hcond, hmin]
    · intro p hp
      rw [more_idx_train, if_neg hcond] at hp
      exact lookup_self_of_nodup m hnd p hp
    · rw [more_idx_eval, if_neg hcond, hmin, List.take_length]
    · rw [more_idx_eval, if_neg hcond, hmin]
  · have hcond : (m.length : Int) > (cs : Int) - 1 := by omega
    have htoNat : (min (m.length : Int) ((cs : Int) - 1)).toNat =
        min m.length (cs - 1) := by omega
    refine ⟨?_, ?_, ?_, ?_⟩
    · rw [more_idx_train, if_pos hcond]
      simp [filter_keys, hch_len]
    · intro p hp
      rw [more_idx_train, if_pos hcond] at hp
      simp only [filter_keys, List.mem_map] at hp
      obtain ⟨k, hk, hpk⟩ := hp
      obtain ⟨v, hv⟩ := lookup_of_mem_keys k m (hch_mem k hk)
      rw [← hpk]
      simp [hv]
    · rw [more_idx_eval, if_pos hcond, htoNat,
        filter_keys_take_prefix m (min m.length (cs - 1)) hnd]
    · rw [more_idx_eval, if_pos hcond, htoNat,
        filter_keys_take_prefix m (min m.length (cs - 1)) hnd]
      simp [List.length_take]

/-- Witness for C9 (amended) at a concrete two-key mapping with
`cs_nvids_sample = 2` and sampled key `"B"`. -/
theorem C9_more_idx_amended_witness :
    (more_idx_train 2 [("A", [1, 2]), ("B", [3])] ["B"]).length =
      min 2 (2 - 1) ∧
    (∀ p ∈ more_idx_train 2 [("A", [1, 2]), ("B", [3])] ["B"],
      ([("A", [1, 2]), ("B", [3])] : List (String × List Int)).lookup p.1 =
        some p.2) ∧
    more_idx_eval 2 [("A", [1, 2]), ("B", [3])] =
      ([("A", [1, 2]), ("B", [3])] : List (String × List Int)).take
        (min 2 (2 - 1)) ∧
    (more_idx_eval 2 [("A", [1, 2]), ("B", [3])]).length = min 2 (2 - 1) :=
  C9_more_idx_amended 2 [("A", [1, 2]), ("B", [3])] ["B"] (by decide)
    (by decide) (by decide) (by decide)

/-- Result of the train-split candidate-gathering loop of
`AV_CS.verb_item_getter_nvid`: `ok` carries the gathered srl indices and
verb-equality flags; `idxErr` models the IndexError raised by
`arg_ids[cons]` past the end of a candidate list; `fuelOut` reports that the
bounded unrolling of the (potentially infinite) `while` loop ran out of fuel
with `len(new_idxs)` still short of `cs_nvids_sample`. -/
inductive GatherResult where
  | ok (new_idxs : List Int) (verb_cmp : List Nat)
  | idxErr
  | fuelOut
deriving DecidableEq

/-- One pass of `for arg_name, arg_ids in more_idxs.items()` at column `cons`
(the loop body shared verbatim by the train branch, dat_loader_simple.py lines
1380-1388, and the valid/test branch, lines 1392-1400, of
`AV_CS.verb_item_getter_nvid`): while fewer than `cs_nvids_sample` indices
are gathered, read `arg_ids[cons]` (IndexError past the end, modelled as
`none`) and, when it is not the sentinel -1, append it together with its
verb-equality flag `int(lemma_verbs.loc[arg_id] == curr_verb)`. -/
def gather_pass (lemma_verbs : Int → String) (curr_verb : String)
    (cs_nvids_sample cons : Nat) :
    List (String × List Int) → List Int → List Nat →
      Option (List Int × List Nat)
  | [], new_idxs, verb_cmp => some (new_idxs, verb_cmp)
  | p :: rest, new_idxs, verb_cmp =>
    if new_idxs.length < cs_nvids_sample then
      match p.2[cons]? with
      | none => none
      | some arg_id_to_append =>
        if arg_id_to_append ≠ -1 then
          gather_pass lemma_verbs curr_verb cs_nvids_sample cons rest
            (new_idxs ++ [arg_id_to_append])
            (verb_cmp ++
              [if lemma_verbs arg_id_to_append = curr_verb then 1 else 0])
        else
          gather_pass lemma_verbs curr_verb cs_nvids_sample cons rest
            new_idxs verb_cmp
    else
      gather_pass lemma_verbs curr_verb cs_nvids_sample cons rest
        new_idxs verb_cmp

/-- The train-split `while len(new_idxs) < self.cs_nvids_sample` loop
(dat_loader_simple.py, lines 1377-1389), with explicit fuel: each unit of
fuel is one full pass over `more_idxs` followed by `cons += 1`.  The Python
loop has no other exit, so `fuelOut` means the loop is still running after
`fuel` passes. -/
def gather_train (lemma_verbs : Int → String) (curr_verb : String)
    (cs_nvids_sample : Nat) (more_idxs : List (String × List Int)) :
    Nat → Nat → List Int → List Nat → GatherResult
  | 0, _, new_idxs, verb_cmp =>
    if new_idxs.length < cs_nvids_sample then .fuelOut
    else .ok new_idxs verb_cmp
  | fuel + 1, cons, new_idxs, verb_cmp =>
    if new_idxs.length < cs_nvids_sample then
      match gather_pass lemma_verbs curr_verb cs_nvids_sample cons more_idxs
          new_idxs verb_cmp with
      | none => .idxErr
      | some (ids2, vc2) =>
        gather_train lemma_verbs curr_verb cs_nvids_sample more_idxs
          fuel (cons + 1) ids2 vc2
    else .ok new_idxs verb_cmp

/-- The comprehension `[lst[ix] for ix in perm]` (`shuffle_list_from_perm`,
dat_loader_simple.py lines 1361-1362); a bad index is an IndexError. -/
def shuffle_list_from_perm {α : Type} (lst : List α) : List Nat → Option (List α)
  | [] => some []
  | ix :: rest =>
    match lst[ix]?, shuffle_list_from_perm lst rest with
    | some a, some l2 => some (a :: l2)
    | _, _ => none

/-- `torch.argsort` specialised to its use at dat_loader_simple.py line 1408:
there `simple_permute` is a permutation of `0..n-1` (`torch.randperm(n)` when
`cs_shuffle` is set, else `torch.arange(n)`), on which argsort is exactly the
inverse permutation: position `j` holds the position of value `j` in `p`. -/
def argsort_perm (p : List Nat) : List Nat :=
  (List.range p.length).map (fun j => p.indexOf j)

/-- The bookkeeping fields of the dict assembled by
`AV_CS.verb_item_getter_nvid` (dat_loader_simple.py, lines 1476-1509) that
the composer invariant speaks about. -/
structure NvidOut where
  permute : List Nat
  permute_inv : List Nat
  target_cmp : Nat
  new_srl_idxs : List Int
  num_cmp : Nat
  num_cmp_msk : List Nat
  verb_cmp : List Nat
deriving DecidableEq

/-- Lines 1402-1509 of `AV_CS.verb_item_getter_nvid` after the gather: draw
`simple_permute` (the `perm_gen` oracle models `torch.randperm(n)` when
`cs_shuffle` is set, else `torch.arange(n)` — either way a permutation of
`0..n-1`), invert it with argsort, take `targ_cmp = simple_permute_inv[0]`
(IndexError on an empty list is `none`), shuffle indices and verb flags, and
pad the bookkeeping vectors to `cs_nvids_sample` (`new_srl_idxs` through
`pad_words_with_vocab` with its default filler 1, `verb_cmp` with filler 0,
`num_cmp_msk` as `[1]*num_cmp + [0]*(cs_nvids_sample - num_cmp)`).
`np.pad(np.eye(num_cmp), (0, cs_nvids_sample - num_cmp))` at lines 1464-1468
raises ValueError on a negative pad width, modelled by the guard. -/
def nvid_bookkeeping (cs_nvids_sample : Nat) (perm_gen : Nat → List Nat)
    (new_idxs : List Int) (verb_cmp : List Nat) : Option NvidOut :=
  let simple_permute := perm_gen new_idxs.length
  let simple_permute_inv := argsort_perm simple_permute
  match simple_permute_inv[0]? with
  | none => none
  | some targ_cmp =>
    match shuffle_list_from_perm new_idxs simple_permute,
          shuffle_list_from_perm verb_cmp simple_permute with
    | some new_idxs2, some verb_cmp2 =>
      let num_cmp := new_idxs2.length
      if (cs_nvids_sample : Int) - (num_cmp : Int) < 0 then none
      else
        let sp_pad := List.range' num_cmp (cs_nvids_sample - num_cmp)
        some { permute := simple_permute ++ sp_pad,
               permute_inv := simple_permute_inv ++ sp_pad,
               target_cmp := targ_cmp,
               new_srl_idxs :=
                 pad_words_with_vocab new_idxs2 (cs_nvids_sample : Int) 1,
               num_cmp := num_cmp,
               num_cmp_msk := List.replicate num_cmp 1 ++
                 List.replicate (cs_nvids_sample - num_cmp) 0,
               verb_cmp :=
                 pad_words_with_vocab verb_cmp2 (cs_nvids_sample : Int) 0 }
    | _, _ => none

/-- Dataset split: `train` versus `valid`/`test`. -/
inductive Split where
  | train
  | val_test
deriving DecidableEq

/-- The gather phase of `AV_CS.verb_item_getter_nvid` (dat_loader_simple.py,
lines 1364-1400): `new_idxs` starts as `[idx]` and `verb_cmp` as `[1]`; the
train split loops `gather_train` over the candidate mapping, the valid/test
split makes the single `gather_pass` at column 0. -/
def nvid_gather (split : Split) (fuel : Nat) (lemma_verbs : Int → String)
    (curr_verb : String) (cs_nvids_sample : Nat)
    (more_idxs : List (String × List Int)) (idx : Int) :
    Option (List Int × List Nat) :=
  match split with
  | .train =>
    match gather_train lemma_verbs curr_verb cs_nvids_sample more_idxs
        fuel 0 [idx] [1] with
    | .ok ids vc => some (ids, vc)
    | _ => none
  | .val_test =>
    gather_pass lemma_verbs curr_verb cs_nvids_sample 0 more_idxs [idx] [1]

/-- Shallow embedding of `AV_CS.verb_item_getter_nvid` (dat_loader_simple.py,
lines 1346-1509), restricted to the bookkeeping outputs: gather, then
permutation bookkeeping and padding. -/
def verb_item_getter_nvid (split : Split) (fuel : Nat)
    (lemma_verbs : Int → String) (more_idxs : List (String × List Int))
    (cs_nvids_sample : Nat) (perm_gen : Nat → List Nat) (idx : Int) :
    Option NvidOut :=
  match nvid_gather split fuel lemma_verbs (lemma_verbs idx) cs_nvids_sample
      more_idxs idx with
  | none => none
  | some (new_idxs, verb_cmp) =>
    nvid_bookkeeping cs_nvids_sample perm_gen new_idxs verb_cmp

theorem gather_pass_ok (lemma_verbs : Int → String) (curr_verb : String)
    (cs cons : Nat) :
    ∀ (m : List (String × List Int)) (ids : List Int) (vc : List Nat)
      (ids2 : List Int) (vc2 : List Nat),
      gather_pass lemma_verbs curr_verb cs cons m ids vc = some (ids2, vc2) →
      ∃ t1 t2, ids2 = ids ++ t1 ∧ vc2 = vc ++ t2 ∧ t1.length = t2.length := by
  intro m
  induction m with
  | nil =>
    intro ids vc ids2 vc2 h
    simp only [gather_pass, Option.some.injEq, Prod.mk.injEq] at h
    exact ⟨[], [], by simp [h.1.symm], by simp [h.2.symm], rfl⟩
  | cons p rest ih =>
    intro ids vc ids2 vc2 h
    rw [gather_pass] at h
    by_cases hlt : ids.length < cs
    · rw [if_pos hlt] at h
      cases harg : p.2[cons]? with
      | none => rw [harg] at h; simp at h
      | some a =>
        rw [harg] at h
        simp only at h
        by_cases hne : a ≠ -1
        · rw [if_pos hne] at h
          obtain ⟨t1, t2, h1, h2, h3⟩ := ih _ _ _ _ h
          exact ⟨a :: t1, (if lemma_verbs a = curr_verb then 1 else 0) :: t2,
            by simpa using h1, by simpa using h2, by simpa using h3⟩
        · rw [if_neg hne] at h
          exact ih _ _ _ _ h
    · rw [if_neg hlt] at h
      exact ih _ _ _ _ h

theorem gather_train_ok (lemma_verbs : Int → String) (curr_verb : String)
    (cs : Nat) (m : List (String × List Int)) :
    ∀ (fuel cons : Nat) (ids : List Int) (vc : List Nat)
      (ids2 : List Int) (vc2 : List Nat),
      gather_train lemma_verbs curr_verb cs m fuel cons ids vc = .ok ids2 vc2 →
      ∃ t1 t2, ids2 = ids ++ t1 ∧ vc2 = vc ++ t2 ∧ t1.length = t2.length := by
  intro fuel
  induction fuel with
  | zero =>
    intro cons ids vc ids2 vc2 h
    rw [gather_train] at h
    by_cases hlt : ids.length < cs
    · rw [if_pos hlt] at h
      simp at h
    · rw [if_neg hlt] at h
      simp only [GatherResult.ok.injEq] at h
      exact ⟨[], [], by simp [h.1.symm], by simp [h.2.symm], rfl⟩
  | succ f ihf =>
    intro cons ids vc ids2 vc2 h
    rw [gather_train] at h
    by_cases hlt : ids.length < cs
    · rw [if_pos hlt] at h
      cases hgp : gather_pass lemma_verbs curr_verb cs cons m ids vc with
      | none => rw [hgp] at h; simp at h
      | some g =>
        obtain ⟨idsm, vcm⟩ := g
        rw [hgp] at h
        simp only at h
        obtain ⟨t1, t2, h1, h2, h3⟩ := ihf _ _ _ _ _ h
        obtain ⟨s1, s2, g1, g2, g3⟩ :=
          gather_pass_ok lemma_verbs curr_verb cs cons m _ _ _ _ hgp
        refine ⟨s1 ++ t1, s2 ++ t2, ?_, ?_, ?_⟩
        · rw [h1, g1, List.append_assoc]
        · rw [h2, g2, List.append_assoc]
        · simp [g3, h3]
    · rw [if_neg hlt] at h
      simp only [GatherResult.ok.injEq] at h
      exact ⟨[], [], by simp [h.1.symm], by simp [h.2.symm], rfl⟩

theorem gather_train_ok_reaches (lemma_verbs : Int → String)
    (curr_verb : String) (cs : Nat) (m : List (String × List Int)) :
    ∀ (fuel cons : Nat) (ids : List Int) (vc : List Nat)
      (ids2 : List Int) (vc2 : List Nat),
      gather_train lemma_verbs curr_verb cs m fuel cons ids vc = .ok ids2 vc2 →
      cs ≤ ids2.length := by
  intro fuel
  induction fuel with
  | zero =>
    intro cons ids vc ids2 vc2 h
    rw [gather_train] at h
    by_cases hlt : ids.length < cs
    · rw [if_pos hlt] at h
      simp at h
    · rw [if_neg hlt] at h
      simp only [GatherResult.ok.injEq] at h
      obtain ⟨h1, _⟩ := h
      subst h1
      omega
  | succ f ihf =>
    intro cons ids vc ids2 vc2 h
    rw [gather_train] at h
    by_cases hlt : ids.length < cs
    · rw [if_pos hlt] at h
      cases hgp : gather_pass lemma_verbs curr_verb cs cons m ids vc with
      | none => rw [hgp] at h; simp at h
      | some g =>
        obtain ⟨idsm, vcm⟩ := g
        rw [hgp] at h
        simp only at h
        exact ihf _ _ _ _ _ h
    · rw [if_neg hlt] at h
      simp only [GatherResult.ok.injEq] at h
      obtain ⟨h1, _⟩ := h
      subst h1
      omega

theorem shuffle_list_from_perm_sound {α : Type} (lst : List α) :
    ∀ perm : List Nat, (∀ k ∈ perm, k < lst.length) →
      ∃ l2 : List α, shuffle_list_from_perm lst perm = some l2 ∧
        l2.length = perm.length ∧
        ∀ (i k : Nat), perm[i]? = some k → l2[i]? = lst[k]? := by
  intro perm
  induction perm with
  | nil =>
    intro _
    refine ⟨[], rfl, rfl, ?_⟩
    intro i k h
    simp at h
  | cons ix rest ih =>
    intro hk
    have hix : ix < lst.length := hk ix (List.mem_cons_self ix rest)
    have ha : lst[ix]? = some lst[ix] := List.getElem?_eq_getElem hix
    obtain ⟨l2, hl2, hlen, hget⟩ :=
      ih (fun k hk2 => hk k (List.mem_cons_of_mem _ hk2))
    refine ⟨lst[ix] :: l2, ?_, by simp [hlen], ?_⟩
    · rw [shuffle_list_from_perm, ha, hl2]
    · intro i k h
      cases i with
      | zero =>
        simp only [List.getElem?_cons_zero, Option.some.injEq] at h
        subst h
        simpa using ha.symm
      | succ j =>
        simp only [List.getElem?_cons_succ] at h ⊢
        exact hget j k h

theorem nvid_gather_shape (split : Split) (fuel : Nat)
    (lemma_verbs : Int → String) (curr_verb : String) (cs : Nat)
    (more_idxs : List (String × List Int)) (idx : Int)
    (ids : List Int) (vc : List Nat)
    (hg : nvid_gather split fuel lemma_verbs curr_verb cs more_idxs idx =
      some (ids, vc)) :
    ∃ t1 t2, ids = idx :: t1 ∧ vc = 1 :: t2 ∧ t1.length = t2.length := by
  cases split with
  | train =>
    simp only [nvid_gather] at hg
    cases hgt : gather_train lemma_verbs curr_verb cs more_idxs fuel 0
        [idx] [1] with
    | ok ids2 vc2 =>
      rw [hgt] at hg
      simp only [Option.some.injEq, Prod.mk.injEq] at hg
      obtain ⟨h1, h2⟩ := hg
      subst h1 h2
      obtain ⟨t1, t2, g1, g2, g3⟩ :=
        gather_train_ok lemma_verbs curr_verb cs more_idxs _ _ _ _ _ _ hgt
      exact ⟨t1, t2, by simpa using g1, by simpa using g2, g3⟩
    | idxErr => rw [hgt] at hg; simp at hg
    | fuelOut => rw [hgt] at hg; simp at hg
  | val_test =>
    simp only [nvid_gather] at hg
    obtain ⟨t1, t2, g1, g2, g3⟩ :=
      gather_pass_ok lemma_verbs curr_verb cs 0 more_idxs _ _ _ _ hg
    exact ⟨t1, t2, by simpa using g1, by simpa using g2, g3⟩

theorem nvid_bookkeeping_invariants (cs : Nat) (perm_gen : Nat → List Nat)
    (ids : List Int) (vc : List Nat) (out : NvidOut)
    (hperm : (perm_gen ids.length).Perm (List.range ids.length))
    (hlen : vc.length = ids.length)
    (hpos : 1 ≤ ids.length)
    (hhead : vc[0]? = some 1)
    (hout : nvid_bookkeeping cs perm_gen ids vc = some out) :
    out.num_cmp_msk.sum = out.num_cmp ∧
    out.verb_cmp[out.target_cmp]? = some 1 := by
  have hplen : (perm_gen ids.length).length = ids.length := by
    simpa using hperm.length_eq
  have hmem : ∀ k ∈ perm_gen ids.length, k < ids.length :=
    fun k hk => List.mem_range.mp (hperm.mem_iff.mp hk)
  have h0p : 0 ∈ perm_gen ids.length :=
    hperm.mem_iff.mpr (List.mem_range.mpr hpos)
  have htlt : (perm_gen ids.length).indexOf 0 < (perm_gen ids.length).length :=
    List.indexOf_lt_length.mpr h0p
  obtain ⟨ids2, hids2, hids2len, _⟩ :=
    shuffle_list_from_perm_sound ids (perm_gen ids.length) hmem
  obtain ⟨vc2, hvc2, hvc2len, hvc2get⟩ :=
    shuffle_list_from_perm_sound vc (perm_gen ids.length)
      (fun k hk => by rw [hlen]; exact hmem k hk)
  have hinv0 : (argsort_perm (perm_gen ids.length))[0]? =
      some ((perm_gen ids.length).indexOf 0) := by
    unfold argsort_perm
    rw [List.getElem?_map, List.getElem?_range (by omega : 0 < _)]
    rfl
  simp only [nvid_bookkeeping] at hout
  rw [hinv0, hids2, hvc2] at hout
  simp only at hout
  by_cases hguard : (cs : Int) - (ids2.length : Int) < 0
  · rw [if_pos hguard] at hout
    simp at hout
  · rw [if_neg hguard] at hout
    simp only [Option.some.injEq] at hout
    subst hout
    have hn2 : ids2.length = ids.length := by rw [hids2len, hplen]
    have hcs : ids2.length ≤ cs := by omega
    constructor
    · simp [List.sum_replicate, smul_eq_mul]
    · have htcs : (perm_gen ids.length).indexOf 0 < cs := by omega
      have htv : (perm_gen ids.length).indexOf 0 < vc2.length := by
        rw [hvc2len]
        omega
      rw [pad_words_with_vocab_getElem_lt vc2 cs 0 _ htv htcs]
      have hp0 : (perm_gen ids.length)[(perm_gen ids.length).indexOf 0]? =
          some 0 := by
        rw [List.getElem?_eq_getElem htlt, List.getElem_indexOf htlt]
      rw [hvc2get _ _ hp0]
      exact hhead

/-- C4: every multi-video example produced by `verb_item_getter_nvid` — either
split, any fuel for the train loop, any shuffle permutation (the `perm_gen`
oracle covers both `torch.randperm` and `torch.arange`) — satisfies
`num_cmp_msk.sum() == num_cmp`, and the slot `target_cmp`, where the original
target index landed after the permutation, always carries a verb-equality
flag `verb_cmp[target_cmp] == 1`. -/
theorem C4_nvid_invariants (split : Split) (fuel : Nat)
    (lemma_verbs : Int → String) (more_idxs : List (String × List Int))
    (cs_nvids_sample : Nat) (perm_gen : Nat → List Nat) (idx : Int)
    (out : NvidOut)
    (hperm : ∀ n, (perm_gen n).Perm (List.range n))
    (hout : verb_item_getter_nvid split fuel lemma_verbs more_idxs
      cs_nvids_sample perm_gen idx = some out) :
    out.num_cmp_msk.sum = out.num_cmp ∧
    out.verb_cmp[out.target_cmp]? = some 1 := by
  unfold verb_item_getter_nvid at hout
  cases hg : nvid_gather split fuel lemma_verbs (lemma_verbs idx)
      cs_nvids_sample more_idxs idx with
  | none =>
    rw [hg] at hout
    exact absurd hout (by simp)
  | some g =>
    obtain ⟨ids, vc⟩ := g
    rw [hg] at hout
    simp only at hout
    obtain ⟨t1, t2, h1, h2, h3⟩ :=
      nvid_gather_shape split fuel lemma_verbs (lemma_verbs idx)
        cs_nvids_sample more_idxs idx ids vc hg
    subst h1 h2
    exact nvid_bookkeeping_invariants cs_nvids_sample perm_gen _ _ out
      (hperm _) (by simpa using h3.symm) (by simp) (by simp) hout

/-- Witness for C4: valid/test split, empty candidate mapping,
`cs_nvids_sample = 1`, identity permutation oracle. -/
theorem C4_nvid_invariants_witness :
    (NvidOut.mk [0] [0] 0 [0] 1 [1] [1]).num_cmp_msk.sum =
      (NvidOut.mk [0] [0] 0 [0] 1 [1] [1]).num_cmp ∧
    (NvidOut.mk [0] [0] 0 [0] 1 [1] [1]).verb_cmp[
      (NvidOut.mk [0] [0] 0 [0] 1 [1] [1]).target_cmp]? = some 1 :=
  C4_nvid_invariants .val_test 0 (fun _ => "jump") [] 1
    (fun n => List.range n) 0 (NvidOut.mk [0] [0] 0 [0] 1 [1] [1])
    (fun _ => List.Perm.refl _) (by decide)

/-- C10: on the train split, the gathering `while` loop of
`verb_item_getter_nvid` can only terminate by reaching `cs_nvids_sample`
gathered indices, i.e. only when the candidate mapping supplies at least
`cs_nvids_sample - 1` non-sentinel indices before any per-argument list runs
out: with an empty candidate mapping and `cs_nvids_sample ≥ 2` the loop never
finishes (every fuel bound is exhausted), and a pass that reads past the end
of a per-argument candidate list raises an out-of-range IndexError instead of
stopping the gathering. -/
theorem C10_gather_train_diverges (lemma_verbs : Int → String)
    (curr_verb : String) (cs : Nat) (idx : Int) (hcs : 2 ≤ cs) :
    (∀ fuel cons, gather_train lemma_verbs curr_verb cs [] fuel cons
        [idx] [1] = .fuelOut) ∧
    (∀ fuel cons, gather_train lemma_verbs curr_verb cs
        [("ARG0", [])] (fuel + 1) cons [idx] [1] = .idxErr) ∧
    (∀ (m : List (String × List Int)) (fuel cons : Nat)
        (ids2 : List Int) (vc2 : List Nat),
      gather_train lemma_verbs curr_verb cs m fuel cons [idx] [1] =
        .ok ids2 vc2 → cs ≤ ids2.length) := by
  have hlt : ([idx] : List Int).length < cs := by simp; omega
  refine ⟨?_, ?_, ?_⟩
  · intro fuel
    induction fuel with
    | zero =>
      intro cons
      rw [gather_train, if_pos hlt]
    | succ f ihf =>
      intro cons
      rw [gather_train, if_pos hlt]
      have hpass : gather_pass lemma_verbs curr_verb cs cons [] [idx] [1] =
          some ([idx], [1]) := rfl
      rw [hpass]
      exact ihf (cons + 1)
  · intro fuel cons
    rw [gather_train, if_pos hlt]
    have hpass : gather_pass lemma_verbs curr_verb cs cons
        [("ARG0", [])] [idx] [1] = none := by
      rw [gather_pass, if_pos hlt]
      rfl
    rw [hpass]
  · intro m fuel cons ids2 vc2 h
    exact gather_train_ok_reaches lemma_verbs curr_verb cs m fuel cons
      [idx] [1] ids2 vc2 h

/-- Witness for C10 at `cs_nvids_sample = 2`: five passes over the empty
mapping still exhaust the fuel, and the empty per-argument list raises the
index error on the first pass. -/
theorem C10_gather_train_diverges_witness :
    gather_train (fun _ => "run") "run" 2 [] 5 0 [0] [1] =
      GatherResult.fuelOut ∧
    gather_train (fun _ => "run") "run" 2 [("ARG0", [])] 5 0 [0] [1] =
      GatherResult.idxErr ∧
    (∀ (ids2 : List Int) (vc2 : List Nat),
      gather_train (fun _ => "run") "run" 2 [] 7 0 [0] [1] = .ok ids2 vc2 →
        2 ≤ ids2.length) :=
  ⟨(C10_gather_train_diverges (fun _ => "run") "run" 2 0 (by decide)).1 5 0,
   (C10_gather_train_diverges (fun _ => "run") "run" 2 0 (by decide)).2.1 4 0,
   fun ids2 vc2 h =>
     (C10_gather_train_diverges (fun _ => "run") "run" 2 0 (by decide)).2.2
       [] 7 0 ids2 vc2 h⟩

end Vognet
